import Mathlib

/-!
Verification of the soccer-demo per-frame pipeline
(`src/Scripts/soccer-demo-experiments/soccer-demo/src/main.py`).

The Python source is shallowly embedded: pixel values and coordinates are
exact rationals (`ℚ`) standing for the floats of the source, with non-finite
numpy float results (`inf`/`nan` from a zero divisor) as `Option.none`, and Python
exceptions are `Except.error`.  Each definition mirrors one source function
and is named after it.
-/

/-! ## Python and numpy primitives -/

/-- Python `int(q)`: truncation toward zero (`int(2.7) = 2`, `int(-2.7) = -2`). -/
def pyInt (q : ℚ) : ℤ :=
  if 0 ≤ q then ⌊q⌋ else ⌈q⌉

/-- Python slice-index normalisation for a sequence of length `n`: a negative
index counts from the end (clamped below at 0), a non-negative index is
clamped above at `n`. -/
def pyNormIdx (n : ℕ) (i : ℤ) : ℕ :=
  if i < 0 then (max (i + n) 0).toNat else min i.toNat n

/-- Python `l[a:b]` (step 1) slice semantics, as used by the numpy crop
`frame[int(y1):int(y2)+1, int(x1):int(x2)+1]`. -/
def pySlice (l : List α) (a b : ℤ) : List α :=
  let lo := pyNormIdx l.length a
  let hi := pyNormIdx l.length b
  (l.drop lo).take (hi - lo)

/-- numpy float division `a / b`: a zero divisor yields a non-finite float
(`±inf` or `nan`, no exception), modelled as `none`. -/
def npDiv (a b : ℚ) : Option ℚ :=
  if b = 0 then none else some (a / b)

/-- Python `int()` applied to a possibly non-finite float: on `inf`/`nan`
(modelled `none`) Python raises; on a finite float it truncates toward 0. -/
def pyIntF : Option ℚ → Except String ℤ
  | none => Except.error "OverflowError: cannot convert float infinity to integer"
  | some q => Except.ok (pyInt q)

/-! ## Homography (`apply_homography_to_point`, main.py:10-20) -/

/-- A 3×3 real matrix (the homography `H`), row-major:
`[[a,b,c],[d,e,f],[g,h,i]]`. -/
structure Mat3 where
  a : ℚ
  b : ℚ
  c : ℚ
  d : ℚ
  e : ℚ
  f : ℚ
  g : ℚ
  h : ℚ
  i : ℚ
deriving DecidableEq

/-- Embedding of `np.dot(H, v)` for a 3-vector `v`. -/
def matVec3 (H : Mat3) (v : ℚ × ℚ × ℚ) : ℚ × ℚ × ℚ :=
  (H.a * v.1 + H.b * v.2.1 + H.c * v.2.2,
   H.d * v.1 + H.e * v.2.1 + H.f * v.2.2,
   H.g * v.1 + H.h * v.2.1 + H.i * v.2.2)

/-- Embedding of `apply_homography_to_point` (main.py:10-20): append 1 to the point,
multiply by `H`, divide the first two components of the result by the third.
Components are `none` exactly when the homogeneous divisor is zero (numpy
produces non-finite floats there rather than raising). -/
def apply_homography_to_point (H : Mat3) (point : ℚ × ℚ) : Option ℚ × Option ℚ :=
  let point_homogeneous : ℚ × ℚ × ℚ := (point.1, point.2, 1)
  let point_transformed_homogeneous := matVec3 H point_homogeneous
  (npDiv point_transformed_homogeneous.1 point_transformed_homogeneous.2.2,
   npDiv point_transformed_homogeneous.2.1 point_transformed_homogeneous.2.2)

/-- The third homogeneous component produced when projecting `point` by `H`
(the perspective divisor). -/
def homogeneousDivisor (H : Mat3) (point : ℚ × ℚ) : ℚ :=
  (matVec3 H (point.1, point.2, 1)).2.2

/-- Determinant of a 3×3 matrix. -/
def det3 (H : Mat3) : ℚ :=
  H.a * (H.e * H.i - H.f * H.h) - H.b * (H.d * H.i - H.f * H.g)
    + H.c * (H.d * H.h - H.e * H.g)

/-- The inverse of a 3×3 matrix (adjugate over determinant), the exact-value
counterpart of `np.linalg.inv`. -/
def inv3 (H : Mat3) : Mat3 where
  a := (H.e * H.i - H.f * H.h) / det3 H
  b := (H.c * H.h - H.b * H.i) / det3 H
  c := (H.b * H.f - H.c * H.e) / det3 H
  d := (H.f * H.g - H.d * H.i) / det3 H
  e := (H.a * H.i - H.c * H.g) / det3 H
  f := (H.c * H.d - H.a * H.f) / det3 H
  g := (H.d * H.h - H.e * H.g) / det3 H
  h := (H.b * H.g - H.a * H.h) / det3 H
  i := (H.a * H.e - H.b * H.d) / det3 H

/-- The identity homography `[[1,0,0],[0,1,0],[0,0,1]]`. -/
def idMat3 : Mat3 := ⟨1, 0, 0, 0, 1, 0, 0, 0, 1⟩

/-! ## Color classification (`predict_class_by_color`, main.py:312-322) -/

/-- An 8-bit 3-channel pixel value: BGR on input frames, HSV after
`cv2.cvtColor(..., cv2.COLOR_BGR2HSV)`. -/
abbrev Pixel := ℕ × ℕ × ℕ

/-- One pixel of OpenCV 8-bit BGR→HSV conversion: `V = max(B,G,R)`,
`S = 255·(V−min)/V` (0 when `V = 0`), hue on the half-degree scale `[0,180)`
from the dominant channel.  The exact fixed-point rounding of OpenCV is
abstracted by integer division; no claim depends on the rounding. -/
def bgr2hsvPixel (p : Pixel) : Pixel :=
  let b := p.1
  let g := p.2.1
  let r := p.2.2
  let v := max r (max g b)
  let m := min r (min g b)
  let d := v - m
  let s := if v = 0 then 0 else 255 * d / v
  let hue :=
    if d = 0 then 0
    else if v = r then (if b ≤ g then 30 * (g - b) / d else 180 - 30 * (b - g) / d)
    else if v = g then (if r ≤ b then 60 + 30 * (b - r) / d else 60 - 30 * (r - b) / d)
    else (if g ≤ r then 120 + 30 * (r - g) / d else 120 - 30 * (g - r) / d)
  (hue % 180, s, v)

/-- Model of `cv2.cvtColor(frame_crop, cv2.COLOR_BGR2HSV)`: raises on an empty source
image (the OpenCV assertion that src is nonempty), otherwise converts each
pixel. -/
def cvtColor_BGR2HSV (pixels : List Pixel) : Except String (List Pixel) :=
  if pixels.isEmpty then
    Except.error "cv2.error: Assertion failed, the source image is empty, in function cvtColor"
  else
    Except.ok (pixels.map bgr2hsvPixel)

/-- Model of `cv2.inRange` at one pixel: 255 exactly when every channel lies within the
inclusive lower/upper bounds, else 0; here the boolean test. -/
def inRangeB (range : Pixel × Pixel) (p : Pixel) : Bool :=
  decide (range.1.1 ≤ p.1 ∧ p.1 ≤ range.2.1 ∧
          range.1.2.1 ≤ p.2.1 ∧ p.2.1 ≤ range.2.2.1 ∧
          range.1.2.2 ≤ p.2.2 ∧ p.2.2 ≤ range.2.2.2)

/-- The number of pixels of `pixels` whose three channels all lie within the
inclusive bounds of `range`. -/
def countInRange (range : Pixel × Pixel) (pixels : List Pixel) : ℕ :=
  (pixels.filter (inRangeB range)).length

/-- The maximum of a list of naturals (0 for the empty list). -/
def listMax (l : List ℕ) : ℕ := l.foldr max 0

/-- Model of `np.argmax`: index of the first maximal element (0 for the empty list,
where numpy would raise). -/
def argmaxFirst : List ℕ → ℕ
  | [] => 0
  | x :: xs => if listMax xs ≤ x then 0 else argmaxFirst xs + 1

/-- Embedding of `DetectionProcessor.predict_class_by_color` (main.py:312-322): convert the
crop to HSV (raising on an empty crop), score each calibrated range by
`np.sum(cv2.inRange(...))` — 255 per matching pixel — and return
`np.argmax(scores) + 1` (numpy raises on an empty score list). -/
def predict_class_by_color (classes_hsv_ranges : List (Pixel × Pixel))
    (frame_crop : List Pixel) : Except String ℕ :=
  match cvtColor_BGR2HSV frame_crop with
  | Except.error s => Except.error s
  | Except.ok frame_crop_hsv =>
    if classes_hsv_ranges.isEmpty then
      Except.error "ValueError: attempt to get argmax of an empty sequence"
    else
      Except.ok (argmaxFirst (classes_hsv_ranges.map
        (fun r => 255 * countInRange r frame_crop_hsv)) + 1)

/-! ## Detection adapter (`compute_detected_objects`, main.py:293-310) -/

/-- One raw detection from the external detector/tracker: an `xyxy` box and a
class label (0 is "ball"). -/
structure RawDetection where
  x1 : ℚ
  y1 : ℚ
  x2 : ℚ
  y2 : ℚ
  label : ℕ
deriving DecidableEq

/-- Embedding of `DetectedObject` (main.py:277-285): box, assigned id (the color-classifier
output), class label, and the projected layout point (`None` until
`process_frame` projects it; each coordinate is itself a possibly non-finite
float). -/
structure DetectedObject where
  bbox : ℚ × ℚ × ℚ × ℚ
  id : ℕ
  label : ℕ
  point_2d : Option (Option ℚ × Option ℚ)
deriving DecidableEq

/-- A video frame as rows of BGR pixels. -/
abbrev Frame := List (List Pixel)

/-- The crop `frame[int(y1):int(y2)+1, int(x1):int(x2)+1, :]` (main.py:304),
flattened to its pixel list (classification only counts pixels).  Python
slicing clamps overshooting non-negative bounds and wraps negative ones; it
never raises, but it can produce an empty crop. -/
def crop_frame (frame : Frame) (x1 y1 x2 y2 : ℚ) : List Pixel :=
  ((pySlice frame (pyInt y1) (pyInt y2 + 1)).map
    (fun row => pySlice row (pyInt x1) (pyInt x2 + 1))).flatten

/-- Embedding of `DetectionProcessor.compute_detected_objects` (main.py:293-310): for every
detection, in order, crop the frame to its box, run the color classifier on
the crop (whatever the label, ball included), and build the
`DetectedObject` with the classifier output as its id.  A classifier
exception propagates out of the loop. -/
def compute_detected_objects (classes_hsv_ranges : List (Pixel × Pixel)) :
    List RawDetection → Frame → Except String (List DetectedObject)
  | [], _ => Except.ok []
  | det :: rest, frame =>
    match predict_class_by_color classes_hsv_ranges
        (crop_frame frame det.x1 det.y1 det.x2 det.y2) with
    | Except.error s => Except.error s
    | Except.ok det_id =>
      match compute_detected_objects classes_hsv_ranges rest frame with
      | Except.error s => Except.error s
      | Except.ok objs =>
        Except.ok (⟨(det.x1, det.y1, det.x2, det.y2), det_id, det.label, none⟩ :: objs)

/-- Embedding of `DetectedObject.get_bbox_bottom` (main.py:283-285):
`np.array([int((xmin + xmax) / 2), int(ymax)])`. -/
def get_bbox_bottom (o : DetectedObject) : ℤ × ℤ :=
  (pyInt ((o.bbox.1 + o.bbox.2.2.1) / 2), pyInt o.bbox.2.2.2)

/-- The per-object assignment in `VideoProcessor.process_frame` (main.py:486):
`detected_objects[i].point_2d = apply_homography_to_point(H, det_obj.get_bbox_bottom())`. -/
def projectObject (H : Mat3) (o : DetectedObject) : DetectedObject :=
  { o with point_2d := some (apply_homography_to_point H
      (((get_bbox_bottom o).1 : ℚ), ((get_bbox_bottom o).2 : ℚ))) }

/-- The projection loop of `VideoProcessor.process_frame` (main.py:485-486). -/
def projectObjects (H : Mat3) (objs : List DetectedObject) : List DetectedObject :=
  objs.map (projectObject H)

/-! ## Heatmap accumulator (`draw_transformed_points_with_heatmap`,
main.py:400-429)

The occupancy grid `self.heatmap` is modelled as a total function on
`ℤ × ℤ × ℕ` (column, row, channel); the physical numpy array is its
restriction to the layout bounds.  `cv2.circle` clips the disk at the array
edge, which matches that restriction, and its filled rasterisation of radius
10 is modelled as the Euclidean disk of radius 10. -/

/-- The occupancy grid: value at (column `x`, row `y`, channel `ch`). -/
def Grid : Type := ℤ → ℤ → ℕ → ℚ

/-- Embedding of `np.zeros((h, w, 2), dtype=np.float32)` (main.py:473). -/
def zeroGrid : Grid := fun _ _ _ => 0

/-- The mask drawn by `cv2.circle(mask, (cx, cy), 10, (1,), thickness=-1)`
(main.py:419): 1 on the filled disk of radius 10 about the centre, 0 off it. -/
def diskMask (cx cy : ℤ) (x y : ℤ) : ℚ :=
  if (x - cx) ^ 2 + (y - cy) ^ 2 ≤ 100 then 1 else 0

/-- Embedding of `heatmap[:, :, id_index] += mask` (main.py:422) with
`id_index = detected_obj.id - 1`: add the disk mask into that one channel,
leaving every other channel unchanged. -/
def stampAt (g : Grid) (cx cy : ℤ) (team : ℕ) : Grid :=
  fun x y ch => if ch = team - 1 then g x y ch + diskMask cx cy x y else g x y ch

/-- One loop iteration of `draw_transformed_points_with_heatmap` on an object
with a finite projected point: `x, y = int(x), int(y)` then the disk stamp
into channel `team - 1`. -/
structure StampOp where
  px : ℚ
  py : ℚ
  team : ℕ

/-- Stamp one projected point (as floats) into the grid. -/
def stampObj (g : Grid) (s : StampOp) : Grid :=
  stampAt g (pyInt s.px) (pyInt s.py) s.team

/-- The sequence of stamps of a run, applied in order. -/
def applyStamps (g : Grid) (ops : List StampOp) : Grid :=
  ops.foldl stampObj g

/-- Embedding of `DetectionProcessor.draw_transformed_points_with_heatmap`
(main.py:400-429), heatmap effect: for each detected object in order, unpack
`point_2d` (raising if it was never set), convert each coordinate with
`int(...)` (raising on a non-finite float), and add the radius-10 disk mask
into channel `id - 1`.  The circles drawn on the returned layout image are
pure rendering and are omitted. -/
def draw_transformed_points_with_heatmap :
    List DetectedObject → Grid → Except String Grid
  | [], heatmap => Except.ok heatmap
  | o :: rest, heatmap =>
    match o.point_2d with
    | none => Except.error "TypeError: cannot unpack non-iterable NoneType object"
    | some pt =>
      match pyIntF pt.1 with
      | Except.error s => Except.error s
      | Except.ok x =>
        match pyIntF pt.2 with
        | Except.error s => Except.error s
        | Except.ok y =>
          draw_transformed_points_with_heatmap rest (stampAt heatmap x y o.id)

/-- The heatmap-relevant body of `VideoProcessor.process_frame` when a
homography is configured (main.py:484-490): project the bbox bottom of every
object, then stamp all objects into the grid.  There is no try/except around
either step. -/
def process_frame_core (H : Mat3) (objs : List DetectedObject) (g : Grid) :
    Except String Grid :=
  draw_transformed_points_with_heatmap (projectObjects H objs) g

/-! ## Heatmap snapshot (`visualize_separate_heatmaps`, main.py:433-449)

The float pipeline `np.log1p(channel) / np.log(base)` →
`cv2.normalize(·, None, 0, 255, cv2.NORM_MINMAX)` → `np.uint8` →
`cv2.applyColorMap(·, cv2.COLORMAP_JET)` is embedded over `ℝ`; the fixed JET
lookup table is modelled as the standard jet piecewise-linear ramp (a fixed
function — no claim depends on the exact table entries). -/

/-- Embedding of `np.log1p(v) / np.log(base)`. -/
noncomputable def logCompress (base : ℝ) (v : ℚ) : ℝ :=
  Real.log (1 + (v : ℝ)) / Real.log base

/-- Model of the `cv2.minMaxIdx` minimum of a channel (0 for an empty channel). -/
noncomputable def listMinR : List ℝ → ℝ
  | [] => 0
  | x :: xs => xs.foldl min x

/-- Model of the `cv2.minMaxIdx` maximum of a channel (0 for an empty channel). -/
noncomputable def listMaxR : List ℝ → ℝ
  | [] => 0
  | x :: xs => xs.foldl max x

/-- The per-value affine map of `cv2.normalize(src, None, 0, 255,
cv2.NORM_MINMAX)`: `v ↦ (v − min)·255/(max − min)`, degenerating to the
constant 0 when the channel is constant (OpenCV uses scale 0 then). -/
noncomputable def cvRescale (mn mx v : ℝ) : ℝ :=
  (v - mn) * (if 0 < mx - mn then 255 / (mx - mn) else 0)

/-- Model of `cv2.normalize(l, None, 0, 255, cv2.NORM_MINMAX)` on a flattened
channel. -/
noncomputable def cvNormalizeMinMax (l : List ℝ) : List ℝ :=
  l.map (cvRescale (listMinR l) (listMaxR l))

/-- Model of `np.uint8(v)`: C-cast truncation (values in the pipeline are in
`[0, 255]`, where this is the floor). -/
noncomputable def npUint8 (v : ℝ) : ℕ :=
  ⌊v⌋.toNat % 256

/-- Model of `cv2.applyColorMap(·, cv2.COLORMAP_JET)` at one intensity, as the fixed
jet-style piecewise-linear ramp in BGR order. -/
def colormapJet (v : ℕ) : Pixel :=
  let ramp : ℤ → ℕ := fun t => (max 0 (min 255 t)).toNat
  (ramp (382 - |4 * (v : ℤ) - 255|),
   ramp (382 - |4 * (v : ℤ) - 510|),
   ramp (382 - |4 * (v : ℤ) - 765|))

/-- Embedding of `visualize_separate_heatmaps` (main.py:433-449): for each channel index,
log-compress, min-max normalize to `[0, 255]`, quantize to `uint8`, and
colorize with the fixed JET map.  The grid itself is only read. -/
noncomputable def visualize_separate_heatmaps (heatmap : List (List ℚ)) (base : ℝ) :
    List (List Pixel) :=
  (List.range heatmap.length).map (fun idx =>
    let channel := heatmap.getD idx []
    let heatmap_log := channel.map (logCompress base)
    let heatmap_normalized := cvNormalizeMinMax heatmap_log
    let heatmap_uint8 := heatmap_normalized.map npUint8
    heatmap_uint8.map colormapJet)

/-! ## Helper lemmas -/

theorem inv3_matVec3 (H : Mat3) (hdet : det3 H ≠ 0) (v : ℚ × ℚ × ℚ) :
    matVec3 (inv3 H) (matVec3 H v) = v := by
  obtain ⟨x, y, z⟩ := v
  simp only [matVec3, inv3, det3] at *
  refine Prod.ext ?_ (Prod.ext ?_ ?_) <;> field_simp <;> ring

theorem matVec3_smul (H : Mat3) (c : ℚ) (v : ℚ × ℚ × ℚ) :
    matVec3 H (c * v.1, c * v.2.1, c * v.2.2)
      = (c * (matVec3 H v).1, c * (matVec3 H v).2.1, c * (matVec3 H v).2.2) := by
  simp only [matVec3]
  refine Prod.ext ?_ (Prod.ext ?_ ?_) <;> ring

theorem getD_le_listMax (l : List ℕ) : ∀ j < l.length, l.getD j 0 ≤ listMax l := by
  induction l with
  | nil => simp
  | cons x xs ih =>
    intro j hj
    cases j with
    | zero => exact le_max_left _ _
    | succ j =>
      simp only [List.getD_cons_succ]
      exact le_trans (ih j (by simpa using hj)) (le_max_right _ _)

theorem argmaxFirst_lt_length (l : List ℕ) (h : l ≠ []) :
    argmaxFirst l < l.length := by
  induction l with
  | nil => exact absurd rfl h
  | cons x xs ih =>
    by_cases hx : listMax xs ≤ x
    · simp [argmaxFirst, hx]
    · have hxs : xs ≠ [] := by
        intro he
        exact hx (by simp [he, listMax])
      simp only [argmaxFirst, if_neg hx, List.length_cons]
      exact Nat.succ_lt_succ (ih hxs)

theorem getD_argmaxFirst (l : List ℕ) (h : l ≠ []) :
    l.getD (argmaxFirst l) 0 = listMax l := by
  induction l with
  | nil => exact absurd rfl h
  | cons x xs ih =>
    by_cases hx : listMax xs ≤ x
    · have hx' : listMax (x :: xs) = x := max_eq_left hx
      simp [argmaxFirst, hx, hx']
    · have hxs : xs ≠ [] := by
        intro he
        exact hx (by simp [he, listMax])
      have hmax : listMax (x :: xs) = listMax xs :=
        max_eq_right (le_of_lt (not_le.mp hx))
      simp only [argmaxFirst, if_neg hx, List.getD_cons_succ, hmax]
      exact ih hxs

theorem getD_lt_of_lt_argmaxFirst (l : List ℕ) :
    ∀ j < argmaxFirst l, l.getD j 0 < l.getD (argmaxFirst l) 0 := by
  induction l with
  | nil => simp [argmaxFirst]
  | cons x xs ih =>
    by_cases hx : listMax xs ≤ x
    · simp [argmaxFirst, hx]
    · have hxs : xs ≠ [] := by
        intro he
        exact hx (by simp [he, listMax])
      intro j hj
      simp only [argmaxFirst, if_neg hx] at hj ⊢
      cases j with
      | zero =>
        simp only [List.getD_cons_zero, List.getD_cons_succ]
        rw [getD_argmaxFirst xs hxs]
        exact not_le.mp hx
      | succ j =>
        simp only [List.getD_cons_succ]
        exact ih j (by omega)

theorem listMax_map_mul (c : ℕ) (l : List ℕ) :
    listMax (l.map (fun x => c * x)) = c * listMax l := by
  induction l with
  | nil => simp [listMax]
  | cons x xs ih =>
    simp only [List.map_cons, listMax, List.foldr_cons] at *
    rw [ih]
    rcases le_total x (xs.foldr max 0) with h | h
    · rw [max_eq_right h, max_eq_right (mul_le_mul_left' h c)]
    · rw [max_eq_left h, max_eq_left (mul_le_mul_left' h c)]

theorem argmaxFirst_map_mul255 (l : List ℕ) :
    argmaxFirst (l.map (fun x => 255 * x)) = argmaxFirst l := by
  induction l with
  | nil => rfl
  | cons x xs ih =>
    simp only [List.map_cons, argmaxFirst, listMax_map_mul]
    by_cases hx : listMax xs ≤ x
    · rw [if_pos (by omega), if_pos hx]
    · rw [if_neg (by omega), if_neg hx, ih]

theorem stampAt_le (g : Grid) (cx cy : ℤ) (team : ℕ) (x y : ℤ) (ch : ℕ) :
    g x y ch ≤ stampAt g cx cy team x y ch := by
  unfold stampAt diskMask
  split_ifs <;> simp

theorem le_applyStamps (ops : List StampOp) :
    ∀ (g : Grid) (x y : ℤ) (ch : ℕ), g x y ch ≤ applyStamps g ops x y ch := by
  induction ops with
  | nil => intro g x y ch; exact le_refl _
  | cons s rest ih =>
    intro g x y ch
    exact le_trans (stampAt_le g (pyInt s.px) (pyInt s.py) s.team x y ch)
      (ih (stampObj g s) x y ch)

theorem map_range_getD {α : Type} (f : List ℚ → α) (l : List (List ℚ)) :
    (List.range l.length).map (fun idx => f (l.getD idx [])) = l.map f := by
  induction l with
  | nil => rfl
  | cons x xs ih =>
    rw [List.length_cons, List.range_succ_eq_map, List.map_cons, List.map_map]
    simp only [List.getD_cons_zero, List.map_cons]
    have hcomp : ((fun idx => f ((x :: xs).getD idx [])) ∘ Nat.succ)
        = fun idx => f (xs.getD idx []) := by
      funext idx
      simp [Function.comp, List.getD_cons_succ]
    rw [hcomp, ih]

/-! ## Claim theorems -/

/-- Claim C2: for every homography `H` and point `p` whose homogeneous divisor
is nonzero, `apply_homography_to_point` lifts `p` to `(px, py, 1)`, multiplies
by `H`, and returns the first two components divided by the third; the
identity homography applied to `(50, 50)` yields `(50, 50)`. -/
theorem c2_apply_homography_spec (H : Mat3) (p : ℚ × ℚ)
    (hd : homogeneousDivisor H p ≠ 0) :
    apply_homography_to_point H p
        = (some ((H.a * p.1 + H.b * p.2 + H.c) / (H.g * p.1 + H.h * p.2 + H.i)),
           some ((H.d * p.1 + H.e * p.2 + H.f) / (H.g * p.1 + H.h * p.2 + H.i)))
      ∧ apply_homography_to_point idMat3 (50, 50) = (some 50, some 50) := by
  constructor
  · simp only [homogeneousDivisor, matVec3, mul_one] at hd
    simp only [apply_homography_to_point, matVec3, npDiv, mul_one, if_neg hd]
  · norm_num [apply_homography_to_point, matVec3, npDiv, idMat3]

/-- Witness for C2 at the identity homography and the point `(50, 50)`, whose
homogeneous divisor is 1. -/
theorem c2_apply_homography_spec_witness :
    homogeneousDivisor idMat3 (50, 50) ≠ 0 ∧
      apply_homography_to_point idMat3 (50, 50)
        = (some ((1 * 50 + 0 * 50 + 0) / (0 * 50 + 0 * 50 + 1)),
           some ((0 * 50 + 1 * 50 + 0) / (0 * 50 + 0 * 50 + 1))) := by
  have hd : homogeneousDivisor idMat3 (50, 50) ≠ 0 := by
    norm_num [homogeneousDivisor, matVec3, idMat3]
  exact ⟨hd, by simpa [idMat3] using (c2_apply_homography_spec idMat3 (50, 50) hd).1⟩

/-- Claim C9: for every invertible homography `H` and point `p` for which both
perspective divides have nonzero divisors, projecting by `H` and then by
`H⁻¹` returns exactly `p` (exact rational arithmetic; the floating-point
claim is the rounded shadow of this identity). -/
theorem c9_round_trip (H : Mat3) (p q : ℚ × ℚ)
    (hdet : det3 H ≠ 0)
    (h1 : apply_homography_to_point H p = (some q.1, some q.2))
    (_hd2 : homogeneousDivisor (inv3 H) q ≠ 0) :
    apply_homography_to_point (inv3 H) (q.1, q.2) = (some p.1, some p.2) := by
  have hd : homogeneousDivisor H p ≠ 0 := by
    intro h0
    simp only [homogeneousDivisor] at h0
    simp only [apply_homography_to_point, npDiv, h0, if_pos rfl] at h1
    simp at h1
  set w := matVec3 H (p.1, p.2, 1) with hw
  have hd' : w.2.2 ≠ 0 := hd
  simp only [apply_homography_to_point, npDiv, ← hw, if_neg hd', Prod.mk.injEq,
    Option.some.injEq] at h1
  have hkey : matVec3 (inv3 H) (q.1, q.2, 1)
      = ((1 / w.2.2) * p.1, (1 / w.2.2) * p.2, (1 / w.2.2) * 1) := by
    have h3 : ((q.1 : ℚ), (q.2 : ℚ), (1 : ℚ))
        = ((1 / w.2.2) * w.1, (1 / w.2.2) * w.2.1, (1 / w.2.2) * w.2.2) := by
      rw [← h1.1, ← h1.2]
      field_simp
    rw [h3]
    have hs := matVec3_smul (inv3 H) (1 / w.2.2) w
    rw [hs, hw, inv3_matVec3 H hdet]
  have hdd : (1 / w.2.2) * 1 ≠ 0 := by
    rw [mul_one]
    exact one_div_ne_zero hd'
  simp only [apply_homography_to_point, npDiv, hkey, if_neg hdd, Prod.mk.injEq,
    Option.some.injEq]
  constructor <;> field_simp

/-- Witness for C9: the scaling homography `[[2,0,0],[0,2,0],[0,0,1]]` sends
`(3,4)` to `(6,8)` and its inverse sends `(6,8)` back to `(3,4)`. -/
theorem c9_round_trip_witness :
    det3 ⟨2, 0, 0, 0, 2, 0, 0, 0, 1⟩ ≠ 0 ∧
      apply_homography_to_point ⟨2, 0, 0, 0, 2, 0, 0, 0, 1⟩ (3, 4) = (some 6, some 8) ∧
      homogeneousDivisor (inv3 ⟨2, 0, 0, 0, 2, 0, 0, 0, 1⟩) (6, 8) ≠ 0 ∧
      apply_homography_to_point (inv3 ⟨2, 0, 0, 0, 2, 0, 0, 0, 1⟩) (6, 8)
        = (some 3, some 4) := by
  have hdet : det3 ⟨2, 0, 0, 0, 2, 0, 0, 0, 1⟩ ≠ 0 := by norm_num [det3]
  have h1 : apply_homography_to_point ⟨2, 0, 0, 0, 2, 0, 0, 0, 1⟩ (3, 4)
      = (some (6 : ℚ), some (8 : ℚ)) := by
    norm_num [apply_homography_to_point, matVec3, npDiv]
  have hd2 : homogeneousDivisor (inv3 ⟨2, 0, 0, 0, 2, 0, 0, 0, 1⟩) (6, 8) ≠ 0 := by
    norm_num [homogeneousDivisor, matVec3, inv3, det3]
  exact ⟨hdet, h1, hd2,
    c9_round_trip ⟨2, 0, 0, 0, 2, 0, 0, 0, 1⟩ (3, 4) (6, 8) hdet h1 hd2⟩

/-- Claim C1 (amended: the crop must be non-empty — on an empty crop the
source raises in `cv2.cvtColor` instead of returning an index, see the
counterexample): for every non-empty crop and non-empty range list, the
classifier scores each range by the count of crop pixels inside the inclusive
bounds of that range on all three HSV channels, and returns first-argmax + 1,
an index in `[1, N]`. -/
theorem c1_classify_spec (ranges : List (Pixel × Pixel)) (crop : List Pixel)
    (hr : ranges ≠ []) (hc : crop ≠ []) :
    ∃ k, predict_class_by_color ranges crop = Except.ok k ∧
      1 ≤ k ∧ k ≤ ranges.length ∧
      k = argmaxFirst (ranges.map (fun r => countInRange r (crop.map bgr2hsvPixel))) + 1 ∧
      (∀ j < ranges.length,
        (ranges.map (fun r => countInRange r (crop.map bgr2hsvPixel))).getD j 0 ≤
          (ranges.map (fun r => countInRange r (crop.map bgr2hsvPixel))).getD (k - 1) 0) ∧
      (∀ j < k - 1,
        (ranges.map (fun r => countInRange r (crop.map bgr2hsvPixel))).getD j 0 <
          (ranges.map (fun r => countInRange r (crop.map bgr2hsvPixel))).getD (k - 1) 0) := by
  have hcv : cvtColor_BGR2HSV crop = Except.ok (crop.map bgr2hsvPixel) := by
    unfold cvtColor_BGR2HSV
    rw [if_neg (by simpa [List.isEmpty_iff] using hc)]
  set counts := ranges.map (fun r => countInRange r (crop.map bgr2hsvPixel)) with hcounts
  have hlen : counts.length = ranges.length := List.length_map _ _
  have hcne : counts ≠ [] := by
    intro he
    exact hr (List.map_eq_nil_iff.mp (hcounts ▸ he))
  have hmap : ranges.map (fun r => 255 * countInRange r (crop.map bgr2hsvPixel))
      = counts.map (fun x => 255 * x) := by
    rw [hcounts, List.map_map]
    rfl
  have hpred : predict_class_by_color ranges crop
      = Except.ok (argmaxFirst counts + 1) := by
    simp only [predict_class_by_color, hcv]
    rw [if_neg (by simpa [List.isEmpty_iff] using hr)]
    rw [hmap, argmaxFirst_map_mul255]
  refine ⟨argmaxFirst counts + 1, hpred, Nat.succ_le_succ (Nat.zero_le _), ?_, rfl, ?_, ?_⟩
  · have := argmaxFirst_lt_length counts hcne
    omega
  · intro j hj
    simp only [Nat.add_sub_cancel]
    calc counts.getD j 0 ≤ listMax counts := getD_le_listMax counts j (by omega)
      _ = counts.getD (argmaxFirst counts) 0 := (getD_argmaxFirst counts hcne).symm
  · intro j hj
    simp only [Nat.add_sub_cancel] at hj ⊢
    exact getD_lt_of_lt_argmaxFirst counts j hj

/-- Counterexample forcing the C1 amendment: on the empty crop the classifier
raises inside `cv2.cvtColor` rather than returning an index in `[1, N]`. -/
theorem c1_classify_counterexample :
    predict_class_by_color [((0, 0, 0), (179, 255, 255))] []
      = Except.error
          "cv2.error: Assertion failed, the source image is empty, in function cvtColor" := by
  rfl

/-- Witness for C1 on a one-pixel crop and two calibrated ranges: the first
range matches the pixel, the second does not, so team 1 is returned. -/
theorem c1_classify_spec_witness :
    ([((0, 0, 0), (179, 255, 255)), ((115, 100, 100), (125, 255, 255))]
        : List (Pixel × Pixel)) ≠ [] ∧
      ([((10, 10, 10) : Pixel)] : List Pixel) ≠ [] ∧
      (∃ k, predict_class_by_color
          [((0, 0, 0), (179, 255, 255)), ((115, 100, 100), (125, 255, 255))]
          [((10, 10, 10) : Pixel)] = Except.ok k ∧
        1 ≤ k ∧
        k ≤ ([((0, 0, 0), (179, 255, 255)), ((115, 100, 100), (125, 255, 255))]
          : List (Pixel × Pixel)).length ∧
        k = argmaxFirst
            (([((0, 0, 0), (179, 255, 255)), ((115, 100, 100), (125, 255, 255))]
              : List (Pixel × Pixel)).map
              (fun r => countInRange r ([((10, 10, 10) : Pixel)].map bgr2hsvPixel))) + 1 ∧
        (∀ j < ([((0, 0, 0), (179, 255, 255)), ((115, 100, 100), (125, 255, 255))]
            : List (Pixel × Pixel)).length,
          (([((0, 0, 0), (179, 255, 255)), ((115, 100, 100), (125, 255, 255))]
            : List (Pixel × Pixel)).map
            (fun r => countInRange r ([((10, 10, 10) : Pixel)].map bgr2hsvPixel))).getD j 0 ≤
            (([((0, 0, 0), (179, 255, 255)), ((115, 100, 100), (125, 255, 255))]
              : List (Pixel × Pixel)).map
              (fun r => countInRange r ([((10, 10, 10) : Pixel)].map bgr2hsvPixel))).getD
              (k - 1) 0) ∧
        (∀ j < k - 1,
          (([((0, 0, 0), (179, 255, 255)), ((115, 100, 100), (125, 255, 255))]
            : List (Pixel × Pixel)).map
            (fun r => countInRange r ([((10, 10, 10) : Pixel)].map bgr2hsvPixel))).getD j 0 <
            (([((0, 0, 0), (179, 255, 255)), ((115, 100, 100), (125, 255, 255))]
              : List (Pixel × Pixel)).map
              (fun r => countInRange r ([((10, 10, 10) : Pixel)].map bgr2hsvPixel))).getD
              (k - 1) 0)) :=
  ⟨by decide, by decide,
    c1_classify_spec
      [((0, 0, 0), (179, 255, 255)), ((115, 100, 100), (125, 255, 255))]
      [((10, 10, 10) : Pixel)] (by decide) (by decide)⟩

/-- Counterexample to C4: the adapter runs the color classifier on every
detection, the ball class (label 0) included, and stores the classifier
output as the id of the object — it is not left unset.  On a 2×2 all-blue frame
the ball detection gets team id 2 (the blue range), and on a 2×2 all-red
frame the same ball detection gets team id 1: the id is color-classified,
not a sentinel. -/
theorem c4_adapter_counterexample :
    compute_detected_objects
        [((0, 0, 0), (10, 255, 255)), ((115, 100, 100), (125, 255, 255))]
        [⟨0, 0, 1, 1, 0⟩]
        [[(255, 0, 0), (255, 0, 0)], [(255, 0, 0), (255, 0, 0)]]
        = Except.ok [⟨(0, 0, 1, 1), 2, 0, none⟩] ∧
      compute_detected_objects
        [((0, 0, 0), (10, 255, 255)), ((115, 100, 100), (125, 255, 255))]
        [⟨0, 0, 1, 1, 0⟩]
        [[(0, 0, 255), (0, 0, 255)], [(0, 0, 255), (0, 0, 255)]]
        = Except.ok [⟨(0, 0, 1, 1), 1, 0, none⟩] :=
  ⟨rfl, rfl⟩

set_option maxHeartbeats 2000000 in
/-- Claim C4 (amended): the adapter invokes the color classifier for every
raw detection regardless of its label — ball (label 0) included — and
assigns the resulting team index as the id of the object; only the camera-pane
drawing later ignores that id for label 0. -/
theorem c4_adapter_amended (ranges : List (Pixel × Pixel)) (frame : Frame)
    (det : RawDetection) (k : ℕ)
    (hk : predict_class_by_color ranges
        (crop_frame frame det.x1 det.y1 det.x2 det.y2) = Except.ok k) :
    compute_detected_objects ranges [det] frame
      = Except.ok [⟨(det.x1, det.y1, det.x2, det.y2), k, det.label, none⟩] := by
  simp only [compute_detected_objects, hk]

/-- Witness for the amended C4 at a ball detection (label 0) on an all-blue
frame: the classifier is invoked and assigns team id 2. -/
theorem c4_adapter_amended_witness :
    predict_class_by_color
        [((0, 0, 0), (10, 255, 255)), ((115, 100, 100), (125, 255, 255))]
        (crop_frame [[(255, 0, 0), (0, 255, 0)], [(255, 0, 0), (255, 0, 0)]] 0 0 0 1)
        = Except.ok 2 ∧
      compute_detected_objects
        [((0, 0, 0), (10, 255, 255)), ((115, 100, 100), (125, 255, 255))]
        [⟨0, 0, 0, 1, 0⟩]
        [[(255, 0, 0), (0, 255, 0)], [(255, 0, 0), (255, 0, 0)]]
        = Except.ok [⟨(0, 0, 0, 1), 2, 0, none⟩] :=
  ⟨rfl,
    c4_adapter_amended
      [((0, 0, 0), (10, 255, 255)), ((115, 100, 100), (125, 255, 255))]
      [[(255, 0, 0), (0, 255, 0)], [(255, 0, 0), (255, 0, 0)]]
      ⟨0, 0, 0, 1, 0⟩ 2 rfl⟩

/-- Claim C5 is wrong about the code: the adapter never clamps crop bounds
itself — Python slicing absorbs positive overshoot but a box entirely
outside the frame, or one whose negative coordinate wraps around, produces an
EMPTY crop, and the classifier then raises inside `cv2.cvtColor` instead of
falling back to a default team.  Evaluated on a 4×4 frame: the fully-outside
box `(100,100,100,100)` and the partially-outside box `(x1=-2, y1=0, x2=1,
y2=3)` both yield an empty crop and crash the adapter. -/
theorem c5_adapter_empty_crop_crash :
    crop_frame (List.replicate 4 (List.replicate 4 ((10, 20, 30) : Pixel)))
        100 100 100 100 = [] ∧
      compute_detected_objects [((0, 0, 0), (179, 255, 255))]
        [⟨100, 100, 100, 100, 0⟩]
        (List.replicate 4 (List.replicate 4 ((10, 20, 30) : Pixel)))
        = Except.error
            "cv2.error: Assertion failed, the source image is empty, in function cvtColor" ∧
      crop_frame (List.replicate 4 (List.replicate 4 ((10, 20, 30) : Pixel)))
        (-2) 0 1 3 = [] ∧
      compute_detected_objects [((0, 0, 0), (179, 255, 255))]
        [⟨-2, 0, 1, 3, 1⟩]
        (List.replicate 4 (List.replicate 4 ((10, 20, 30) : Pixel)))
        = Except.error
            "cv2.error: Assertion failed, the source image is empty, in function cvtColor" :=
  ⟨rfl, rfl, rfl, rfl⟩

/-- Claim C10: the point handed to homography projection for every detected
object is the bottom-center of its bounding box,
`(int((xmin + xmax) / 2), int(ymax))`, where `int` is truncation toward zero
(`|int(q)| ≤ |q|` and `|q − int(q)| < 1`). -/
theorem c10_bbox_bottom_spec (H : Mat3) (o : DetectedObject) :
    (projectObject H o).point_2d
        = some (apply_homography_to_point H
            (((get_bbox_bottom o).1 : ℚ), ((get_bbox_bottom o).2 : ℚ))) ∧
      get_bbox_bottom o
        = (pyInt ((o.bbox.1 + o.bbox.2.2.1) / 2), pyInt o.bbox.2.2.2) ∧
      (∀ q : ℚ, |(pyInt q : ℚ)| ≤ |q| ∧ |q - (pyInt q : ℚ)| < 1) := by
  refine ⟨rfl, rfl, ?_⟩
  intro q
  unfold pyInt
  by_cases h : 0 ≤ q
  · rw [if_pos h]
    constructor
    · rw [abs_of_nonneg (by exact_mod_cast Int.floor_nonneg.mpr h), abs_of_nonneg h]
      exact Int.floor_le q
    · rw [abs_of_nonneg (by linarith [Int.floor_le q])]
      linarith [Int.lt_floor_add_one q]
  · rw [if_neg h]
    push_neg at h
    constructor
    · have hceil : ((⌈q⌉ : ℚ)) ≤ 0 := by
        exact_mod_cast Int.ceil_le.mpr (by exact_mod_cast h.le)
      rw [abs_of_nonpos hceil, abs_of_nonpos h.le, neg_le_neg_iff]
      exact Int.le_ceil q
    · rw [abs_of_nonpos (by linarith [Int.le_ceil q])]
      linarith [Int.ceil_lt_add_one q]

/-- Claim C6: the occupancy grid is monotonically non-decreasing per cell per
channel — a single stamp never decreases a cell, any longer stamp sequence
dominates any prefix of it, and whenever the drawing loop of the source succeeds
the resulting grid dominates the input grid cell-wise (the grid is only ever
added to, never reset). -/
theorem c6_heatmap_monotone :
    (∀ (g : Grid) (s : StampOp) (x y : ℤ) (ch : ℕ),
        g x y ch ≤ stampObj g s x y ch) ∧
      (∀ (g : Grid) (ops₁ ops₂ : List StampOp) (x y : ℤ) (ch : ℕ),
        applyStamps g ops₁ x y ch ≤ applyStamps g (ops₁ ++ ops₂) x y ch) ∧
      (∀ (objs : List DetectedObject) (g g' : Grid),
        draw_transformed_points_with_heatmap objs g = Except.ok g' →
          ∀ (x y : ℤ) (ch : ℕ), g x y ch ≤ g' x y ch) := by
  refine ⟨?_, ?_, ?_⟩
  · intro g s x y ch
    exact stampAt_le g (pyInt s.px) (pyInt s.py) s.team x y ch
  · intro g ops₁ ops₂ x y ch
    simp only [applyStamps, List.foldl_append]
    exact le_applyStamps ops₂ (List.foldl stampObj g ops₁) x y ch
  · intro objs
    induction objs with
    | nil =>
      intro g g' hdraw x y ch
      simp only [draw_transformed_points_with_heatmap, Except.ok.injEq] at hdraw
      rw [hdraw]
    | cons o rest ih =>
      intro g g' hdraw x y ch
      simp only [draw_transformed_points_with_heatmap] at hdraw
      split at hdraw
      · simp at hdraw
      · split at hdraw
        · simp at hdraw
        · rename_i x0 hx0
          split at hdraw
          · simp at hdraw
          · rename_i y0 hy0
            exact le_trans (stampAt_le g x0 y0 o.id x y ch)
              (ih (stampAt g x0 y0 o.id) g' hdraw x y ch)

/-- Witness for C6: one successful drawing step on the zero grid, dominating
the zero grid at the stamped cell. -/
theorem c6_heatmap_monotone_witness :
    draw_transformed_points_with_heatmap
        [⟨(0, 0, 0, 0), 1, 1, some (some 5, some 5)⟩] zeroGrid
        = Except.ok (stampAt zeroGrid (pyInt 5) (pyInt 5) 1) ∧
      zeroGrid 5 5 0 ≤ stampAt zeroGrid (pyInt 5) (pyInt 5) 1 5 5 0 :=
  ⟨rfl,
    c6_heatmap_monotone.2.2 [⟨(0, 0, 0, 0), 1, 1, some (some 5, some 5)⟩]
      zeroGrid (stampAt zeroGrid (pyInt 5) (pyInt 5) 1) rfl 5 5 0⟩

/-- Claim C7: a stamp adds exactly 1 to each cell of channel `team − 1` inside
the radius-10 disk about the `int(...)`-converted projected point, leaves
cells outside the disk and all other channels unchanged, commutes with any
other stamp, and stamping the same point three times from the zero grid
yields 3× the single-stamp value at the centre cell of the stamp. -/
theorem c7_stamp_spec :
    (∀ (g : Grid) (s : StampOp) (x y : ℤ),
        ((x - pyInt s.px) ^ 2 + (y - pyInt s.py) ^ 2 ≤ 100 →
          stampObj g s x y (s.team - 1) = g x y (s.team - 1) + 1) ∧
        (¬ (x - pyInt s.px) ^ 2 + (y - pyInt s.py) ^ 2 ≤ 100 →
          stampObj g s x y (s.team - 1) = g x y (s.team - 1)) ∧
        (∀ ch, ch ≠ s.team - 1 → stampObj g s x y ch = g x y ch)) ∧
      (∀ (g : Grid) (s₁ s₂ : StampOp),
        stampObj (stampObj g s₁) s₂ = stampObj (stampObj g s₂) s₁) ∧
      (∀ s : StampOp,
        applyStamps zeroGrid [s, s, s] (pyInt s.px) (pyInt s.py) (s.team - 1)
          = 3 * applyStamps zeroGrid [s] (pyInt s.px) (pyInt s.py) (s.team - 1)) := by
  refine ⟨?_, ?_, ?_⟩
  · intro g s x y
    refine ⟨?_, ?_, ?_⟩
    · intro hin
      simp [stampObj, stampAt, diskMask, hin]
    · intro hout
      simp [stampObj, stampAt, diskMask, hout]
    · intro ch hch
      simp [stampObj, stampAt, hch]
  · intro g s₁ s₂
    funext x y ch
    simp only [stampObj, stampAt]
    split_ifs <;> ring
  · intro s
    simp only [applyStamps, List.foldl, stampObj, stampAt, zeroGrid, diskMask, sub_self]
    norm_num

/-- Witness for C7: stamping the point `(5/2, 7)` for team 2 — centre cell
`(2, 7)` after truncation — adds exactly 1 to channel 1 at the centre, and
leaves channel 0 unchanged. -/
theorem c7_stamp_spec_witness :
    ((2 : ℤ) - pyInt ((5 : ℚ) / 2)) ^ 2 + ((7 : ℤ) - pyInt (7 : ℚ)) ^ 2 ≤ 100 ∧
      stampObj zeroGrid ⟨(5 : ℚ) / 2, 7, 2⟩ 2 7 (2 - 1)
        = zeroGrid 2 7 (2 - 1) + 1 ∧
      (0 : ℕ) ≠ 2 - 1 ∧
      stampObj zeroGrid ⟨(5 : ℚ) / 2, 7, 2⟩ 2 7 0 = zeroGrid 2 7 0 := by
  have hin : ((2 : ℤ) - pyInt ((5 : ℚ) / 2)) ^ 2 + ((7 : ℤ) - pyInt (7 : ℚ)) ^ 2 ≤ 100 := by
    norm_num [pyInt]
  refine ⟨hin, (c7_stamp_spec.1 zeroGrid ⟨(5 : ℚ) / 2, 7, 2⟩ 2 7).1 hin, by decide,
    (c7_stamp_spec.1 zeroGrid ⟨(5 : ℚ) / 2, 7, 2⟩ 2 7).2.2 0 (by decide)⟩

/-- Claim C3 is wrong about the code: nothing guards a zero homogeneous
divisor.  `apply_homography_to_point` divides anyway — numpy yields
non-finite coordinates (`none` here) — and the `int(x)` conversion in the
drawing step then raises, aborting frame processing instead of skipping the
degenerate point: with `H = [[1,0,0],[0,1,0],[1,0,-50]]` the point `(50,50)`
has divisor 0, and `process_frame` on a list holding that object and a
perfectly projectable one errors out rather than skipping the bad point. -/
theorem c3_projection_not_guarded :
    apply_homography_to_point ⟨1, 0, 0, 0, 1, 0, 1, 0, -50⟩ (50, 50) = (none, none) ∧
      process_frame_core ⟨1, 0, 0, 0, 1, 0, 1, 0, -50⟩
        [⟨(50, 40, 50, 50), 1, 1, none⟩, ⟨(5, 5, 15, 10), 1, 1, none⟩] zeroGrid
        = Except.error "OverflowError: cannot convert float infinity to integer" := by
  constructor
  · norm_num [apply_homography_to_point, matVec3, npDiv]
  · have hb : get_bbox_bottom ⟨(50, 40, 50, 50), 1, 1, none⟩ = (50, 50) := by
      norm_num [get_bbox_bottom, pyInt]
    have hbad : projectObject ⟨1, 0, 0, 0, 1, 0, 1, 0, -50⟩ ⟨(50, 40, 50, 50), 1, 1, none⟩
        = ⟨(50, 40, 50, 50), 1, 1, some (none, none)⟩ := by
      simp only [projectObject, hb]
      norm_num [apply_homography_to_point, matVec3, npDiv]
    simp only [process_frame_core, projectObjects, List.map_cons, List.map_nil, hbad]
    rfl

/-- Claim C8: `visualize_separate_heatmaps` maps each channel through
`log(1+v)/log(base)`, then the per-channel min-max rescale of
`cv2.normalize(·, 0, 255, NORM_MINMAX)` — which sends the channel minimum to
0, the channel maximum to 255, and everything between into `[0, 255]` — then
`uint8` quantisation and the fixed JET colormap; it reads the grid only, so
two calls on an unchanged grid give the same output. -/
theorem c8_snapshot_spec (heatmap : List (List ℚ)) (base : ℝ) :
    visualize_separate_heatmaps heatmap base
        = heatmap.map (fun channel =>
            (((cvNormalizeMinMax (channel.map (logCompress base))).map npUint8).map
              colormapJet)) ∧
      (∀ l : List ℝ, cvNormalizeMinMax l = l.map (cvRescale (listMinR l) (listMaxR l))) ∧
      (∀ mn mx : ℝ, mn < mx →
        cvRescale mn mx mn = 0 ∧ cvRescale mn mx mx = 255 ∧
        ∀ v : ℝ, mn ≤ v → v ≤ mx → 0 ≤ cvRescale mn mx v ∧ cvRescale mn mx v ≤ 255) ∧
      visualize_separate_heatmaps heatmap base = visualize_separate_heatmaps heatmap base := by
  refine ⟨?_, fun l => rfl, ?_, rfl⟩
  · unfold visualize_separate_heatmaps
    exact map_range_getD
      (fun channel =>
        ((cvNormalizeMinMax (channel.map (logCompress base))).map npUint8).map colormapJet)
      heatmap
  · intro mn mx hlt
    have hpos : 0 < mx - mn := by linarith
    have h255 : (mx - mn) * (255 / (mx - mn)) = 255 := by field_simp
    refine ⟨by simp [cvRescale], ?_, ?_⟩
    · rw [cvRescale, if_pos hpos]
      exact h255
    · intro v hv1 hv2
      rw [cvRescale, if_pos hpos]
      constructor
      · exact mul_nonneg (by linarith) (by positivity)
      · calc (v - mn) * (255 / (mx - mn))
            ≤ (mx - mn) * (255 / (mx - mn)) := by
              apply mul_le_mul_of_nonneg_right (by linarith)
              positivity
          _ = 255 := h255

/-- Witness for C8: the rescale facts instantiated at the channel bounds
`mn = 0 < mx = 1` and the interior value `1/2`. -/
theorem c8_snapshot_spec_witness :
    (0 : ℝ) < 1 ∧
      cvRescale 0 1 0 = 0 ∧ cvRescale 0 1 1 = 255 ∧
      (0 ≤ cvRescale 0 1 (1 / 2) ∧ cvRescale 0 1 (1 / 2) ≤ 255) := by
  have h01 : (0 : ℝ) < 1 := by norm_num
  obtain ⟨ha, hb, hc⟩ := (c8_snapshot_spec [[0, 9]] 10).2.2.1 0 1 h01
  exact ⟨h01, ha, hb, hc (1 / 2) (by norm_num) (by norm_num)⟩
